import Mathlib

/-!
Verification of the clipm clipboard-history manager (persistence and query
layer) against its specification.

The embedding models `src/models.rs`, `src/db.rs`, `src/commands.rs` and
`src/clipboard.rs`.  The SQLite database is modelled as an explicit state
(`Db`): the `clips` table is a list of stored rows (column values as they
sit on disk, so `content_type` is a string there), the `clips_fts`
full-text index is a list of index rows, and the AUTOINCREMENT id sequence
is an integer counter.  The version-2 triggers of `migrate` are modelled
inside the mutating operations (`insert`, `delete_row`, `update_label`,
`clear`), which is exactly what the triggers do: every write to `clips`
synchronously writes the corresponding masked record to `clips_fts`.

Character-level string operations (trimming, FTS tokenisation, the SQLite
byte-wise text comparison used for `created_at >= cutoff`) are implemented
structurally over `String.data` so that every definition evaluates inside
the kernel.  The FTS5 tokenizer is modelled as the default unicode61
behaviour restricted to what the claims need: lower-cased maximal runs of
alphanumeric characters.  The bm25 relevance order of `search` is
abstracted as the index order of the candidate rows; no claim below
depends on the relative order of search results.
-/

deriving instance DecidableEq for Except

namespace Clipm

/-- The lexicographic byte-wise comparison SQLite uses on TEXT columns,
modelled on unicode scalar values; used for the `created_at >= ?` filters. -/
def ltChars : List Char → List Char → Bool
  | [], [] => false
  | [], _ :: _ => true
  | _ :: _, [] => false
  | a :: as, b :: bs => if a < b then true else if b < a then false else ltChars as bs

/-- Text order on `String` induced by `ltChars`; `strLe a b` models the SQL
comparison `a <= b` on TEXT values. -/
def strLe (a b : String) : Bool := !ltChars b.data a.data

/-- Helper dropping leading whitespace characters. -/
def dropLeadingWs : List Char → List Char
  | [] => []
  | c :: cs => if c.isWhitespace then dropLeadingWs cs else c :: cs

/-- The model of `str::trim`: strip whitespace from both ends. -/
def trimStr (s : String) : String :=
  ⟨(dropLeadingWs (dropLeadingWs s.data.reverse).reverse)⟩

/-- The model of `str::replace('\x22', "\x22\x22")` from `db::search`: each
double-quote character is doubled. -/
def escapeQuotes (s : String) : String :=
  ⟨s.data.flatMap (fun c => if c = '\x22' then [c, c] else [c])⟩

/-- Helper for the FTS5 unicode61 tokenizer model: split a character list
into maximal alphanumeric runs, lower-cased.  `cur` is the run being built,
in reverse. -/
def tokenizeAux : List Char → List Char → List String
  | [], [] => []
  | [], cur => [⟨cur.reverse⟩]
  | c :: cs, cur =>
      if c.isAlphanum then tokenizeAux cs (c.toLower :: cur)
      else match cur with
        | [] => tokenizeAux cs []
        | _ => ⟨cur.reverse⟩ :: tokenizeAux cs []

/-- The FTS5 default tokenizer model: lower-cased maximal alphanumeric runs. -/
def tokenize (s : String) : List String := tokenizeAux s.data []

/-- The `ContentType` enumeration from `models.rs`. -/
inductive ContentType
  | Text
  | Password
deriving DecidableEq, Repr

/-- The `Display` implementation for `ContentType` in `models.rs`. -/
def ContentType.toStr : ContentType → String
  | .Text => "text"
  | .Password => "password"

/-- The `FromStr` implementation for `ContentType` in `models.rs`: only the
literal strings "text" and "password" parse; anything else is an error
carrying the message built there. -/
def ContentType.fromStr (s : String) : Except String ContentType :=
  if s = "text" then .ok .Text
  else if s = "password" then .ok .Password
  else .error ("Invalid content type: " ++ s ++ ". Must be 'text' or 'password'.")

/-- The `ClipmError` enumeration from `models.rs`. -/
inductive ClipmError
  | Clipboard (msg : String)
  | Database (msg : String)
  | Io (msg : String)
  | NotFound (msg : String)
  | InvalidInput (msg : String)
  | EmptyClipboard
deriving DecidableEq, Repr

/-- The `ClipEntry` struct from `models.rs`. -/
structure ClipEntry where
  id : Int
  content : String
  content_type : ContentType
  byte_size : Nat
  created_at : String
  label : Option String
deriving DecidableEq, Repr

/-- One row of the `clips` table as stored on disk: `content_type` is the
TEXT column value, not yet parsed into the enumeration. -/
structure Row where
  id : Int
  content : String
  content_type : String
  byte_size : Int
  created_at : String
  label : Option String
deriving DecidableEq, Repr

/-- One row of the `clips_fts` full-text index: rowid plus the two indexed
columns.  Under the version-2 triggers the indexed content of a password
row is the empty string. -/
structure FtsRow where
  rowid : Int
  content : String
  label : Option String
deriving DecidableEq, Repr

/-- The database state: the `clips` table, the `clips_fts` index, and the
AUTOINCREMENT sequence (ids are never reused). -/
structure Db where
  rows : List Row
  fts : List FtsRow
  seq : Int
deriving DecidableEq, Repr

/-- The empty, freshly migrated database. -/
def Db.empty : Db := ⟨[], [], 0⟩

/-- The CASE expression of the version-2 triggers: a password row's content
is indexed as the empty string, so secrets never reach the search index. -/
def maskForFts (content_type content : String) : String :=
  if content_type = "password" then "" else content

/-- The `clips_fts` record the version-2 AFTER INSERT / AFTER UPDATE
triggers derive from a `clips` row. -/
def Row.toFts (r : Row) : FtsRow :=
  ⟨r.id, maskForFts r.content_type r.content, r.label⟩

/-- Conversion of a `ClipEntry` to its on-disk row with a given id, as done
by the INSERT statement in `db::insert` (the enumeration is serialised via
`to_string`). -/
def ClipEntry.toRow (e : ClipEntry) (id : Int) : Row :=
  ⟨id, e.content, e.content_type.toStr, (e.byte_size : Int), e.created_at, e.label⟩

/-- The model of `db::insert`: assign the next id, append the row, and (via
the AFTER INSERT trigger) append the masked index record; returns the new
state and `last_insert_rowid`. -/
def Db.insert (db : Db) (e : ClipEntry) : Db × Int :=
  let id := db.seq + 1
  let row := e.toRow id
  (⟨db.rows ++ [row], db.fts ++ [row.toFts], id⟩, id)

/-- The subquery `SELECT MAX(id) FROM clips`: `none` on an empty table. -/
def maxId : List Row → Option Int
  | [] => none
  | r :: rs =>
      match maxId rs with
      | none => some r.id
      | some m => some (max r.id m)

/-- The model of `db::is_duplicate`: there exists a row whose id equals
`MAX(id)` and whose content equals `content` (byte-for-byte equality of the
TEXT column). -/
def Db.is_duplicate (db : Db) (content : String) : Bool :=
  match maxId db.rows with
  | none => false
  | some m => db.rows.any (fun r => r.id = m ∧ r.content = content)

/-- Wellformedness maintained by the storage engine: row ids are strictly
increasing in insertion order and bounded by the AUTOINCREMENT sequence. -/
def Db.Wf (db : Db) : Prop :=
  db.rows.Pairwise (fun a b => a.id < b.id) ∧ ∀ r ∈ db.rows, r.id ≤ db.seq

instance (db : Db) : Decidable db.Wf := by
  unfold Db.Wf; infer_instance

/-- Consistency of the search index with the table under the version-2
triggers: `clips_fts` holds exactly the masked image of `clips`. -/
def Db.FtsConsistent (db : Db) : Prop :=
  db.fts = db.rows.map Row.toFts

instance (db : Db) : Decidable db.FtsConsistent := by
  unfold Db.FtsConsistent; infer_instance

/-- The model of `row_to_entry` in `db.rs`: the stored `content_type` text
is parsed back into the enumeration; an unrecognized tag is a conversion
error (in the source a `FromSqlConversionFailure`, which is distinct from
`QueryReturnedNoRows`), carrying the parse message. -/
def row_to_entry (r : Row) : Except String ClipEntry :=
  match ContentType.fromStr r.content_type with
  | .error e => .error e
  | .ok ct => .ok ⟨r.id, r.content, ct, r.byte_size.toNat, r.created_at, r.label⟩

/-- The model of `db::get_by_id`: `QueryReturnedNoRows` becomes `NotFound`,
any other query error (in particular a conversion failure from
`row_to_entry`) becomes `Database`. -/
def Db.get_by_id (db : Db) (id : Int) : Except ClipmError ClipEntry :=
  match db.rows.find? (fun r => r.id == id) with
  | none => .error (.NotFound ("No entry with id " ++ toString id))
  | some r =>
      match row_to_entry r with
      | .ok e => .ok e
      | .error msg => .error (.Database msg)

/-- The model of `db::get_most_recent`: `ORDER BY id DESC LIMIT 1` selects
the row carrying `MAX(id)`; an empty table is `NotFound`, a conversion
failure is `Database`.  (The inner `none` branch is unreachable: a maximum
is always attained by some row.) -/
def Db.get_most_recent (db : Db) : Except ClipmError ClipEntry :=
  match maxId db.rows with
  | none => .error (.NotFound "No entries in history")
  | some m =>
      match db.rows.find? (fun r => r.id == m) with
      | none => .error (.NotFound "No entries in history")
      | some r =>
          match row_to_entry r with
          | .ok e => .ok e
          | .error msg => .error (.Database msg)

/-- The `collect::<Result<Vec<_>, _>>` step shared by `db::list` and
`db::search`: convert each selected row, stopping at the first conversion
error. -/
def rowsToEntries : List Row → Except String (List ClipEntry)
  | [] => .ok []
  | r :: rs =>
      match row_to_entry r with
      | .error e => .error e
      | .ok e =>
          match rowsToEntries rs with
          | .error e2 => .error e2
          | .ok es => .ok (e :: es)

/-- The conjunctive WHERE clause built by `db::list`: each of the three
optional filters must pass.  `cutoff` stands for the RFC-3339 string
`now - days` computed in the source; the SQL comparison
`created_at >= cutoff` is byte-wise text comparison. -/
def rowPassesList (label cutoff ct : Option String) (r : Row) : Bool :=
  (match label with | some l => r.label == some l | none => true) &&
  (match cutoff with | some cut => strLe cut r.created_at | none => true) &&
  (match ct with | some t => r.content_type == t | none => true)

/-- Insertion step for sorting rows by id descending. -/
def insertDesc (r : Row) : List Row → List Row
  | [] => [r]
  | x :: xs => if x.id ≤ r.id then r :: x :: xs else x :: insertDesc r xs

/-- The `ORDER BY id DESC` clause, modelled as insertion sort. -/
def sortDesc : List Row → List Row
  | [] => []
  | r :: rs => insertDesc r (sortDesc rs)

/-- The row selection of `db::list`: filter conjunctively, order by id
descending, then apply OFFSET and LIMIT. -/
def Db.listSelect (db : Db) (limit offset : Nat) (label cutoff ct : Option String) : List Row :=
  ((sortDesc (db.rows.filter (rowPassesList label cutoff ct))).drop offset).take limit

/-- The model of `db::list`: select rows, then convert them; a conversion
failure surfaces as a `Database` error via `From<rusqlite::Error>`. -/
def Db.list (db : Db) (limit offset : Nat) (label cutoff ct : Option String) :
    Except ClipmError (List ClipEntry) :=
  match rowsToEntries (db.listSelect limit offset label cutoff ct) with
  | .ok es => .ok es
  | .error msg => .error (.Database msg)

/-- The FTS5 MATCH predicate model: every query term occurs among the
tokens of the indexed content or of the indexed label (NULL label indexes
as no tokens). -/
def ftsMatch (terms : List String) (f : FtsRow) : Bool :=
  terms.all (fun t => (tokenize f.content).contains t || (tokenize (f.label.getD "")).contains t)

/-- The two optional filters of `db::search` applied to the joined `clips`
row. -/
def rowPassesSearch (cutoff ct : Option String) (r : Row) : Bool :=
  (match cutoff with | some cut => strLe cut r.created_at | none => true) &&
  (match ct with | some t => r.content_type == t | none => true)

/-- The row selection of `db::search`: the index rows matching the query
are joined back to `clips` on `c.id = f.rowid`, the optional filters are
applied, and LIMIT cuts the result (bm25 relevance order abstracted as
index order). -/
def Db.searchSelect (db : Db) (terms : List String) (limit : Nat) (cutoff ct : Option String) :
    List Row :=
  ((((db.fts.filter (ftsMatch terms)).filterMap
      (fun f => db.rows.find? (fun r => r.id == f.rowid))).filter
      (rowPassesSearch cutoff ct)).take limit)

/-- The model of `db::search`: reject a query that trims to the empty
string with `InvalidInput`, escape double quotes, tokenise, select and
convert; a conversion failure surfaces as a `Database` error. -/
def Db.search (db : Db) (query : String) (limit : Nat) (cutoff ct : Option String) :
    Except ClipmError (List ClipEntry) :=
  let trimmed := trimStr query
  if trimmed = "" then .error (.InvalidInput "Empty search query")
  else
    match rowsToEntries (db.searchSelect (tokenize (escapeQuotes trimmed)) limit cutoff ct) with
    | .ok es => .ok es
    | .error msg => .error (.Database msg)

/-- The model of `db::delete`: remove the row (the AFTER DELETE trigger
removes its index record); zero affected rows is `NotFound`. -/
def Db.delete (db : Db) (id : Int) : Db × Except ClipmError Unit :=
  let changed := (db.rows.filter (fun r => r.id == id)).length
  if changed = 0 then (db, .error (.NotFound ("No entry with id " ++ toString id)))
  else
    (⟨db.rows.filter (fun r => r.id != id), db.fts.filter (fun f => f.rowid != id), db.seq⟩,
     .ok ())

/-- The model of `db::clear`: count the rows, delete them all (the triggers
empty the index), return the count; the AUTOINCREMENT sequence persists. -/
def Db.clear (db : Db) : Db × Nat :=
  (⟨[], [], db.seq⟩, db.rows.length)

/-- The schema objects `db::migrate` manipulates.  `user_version` is the
PRAGMA value; the Bool fields record whether the corresponding table or
index exists; `trigger_set` records which generation of sync triggers is
installed (`some 1` for the version-1 triggers, `some 2` for the
password-masking version-2 triggers); `fts_rebuilt` records that the
`rebuild` command has been issued against `clips_fts`. -/
structure Schema where
  user_version : Int
  clips_table : Bool
  idx_label : Bool
  fts_table : Bool
  trigger_set : Option Nat
  fts_rebuilt : Bool
  idx_content_type : Bool
deriving DecidableEq, Repr

/-- A fresh database before any migration: `PRAGMA user_version` is 0 and
no schema object exists. -/
def Schema.fresh : Schema := ⟨0, false, false, false, none, false, false⟩

/-- The version-1 batch of `db::migrate`: create the table, the label
index, the FTS table and the version-1 triggers, all `IF NOT EXISTS`
(in particular existing triggers are kept), then set `user_version = 1`. -/
def migration1 (s : Schema) : Schema :=
  { s with
    clips_table := true
    idx_label := true
    fts_table := true
    trigger_set := some (s.trigger_set.getD 1)
    user_version := 1 }

/-- The version-2 batch of `db::migrate`: drop the old triggers
(`IF EXISTS`), recreate them with password masking, rebuild the FTS index,
add the content-type index, then set `user_version = 2`. -/
def migration2 (s : Schema) : Schema :=
  { s with
    trigger_set := some 2
    fts_rebuilt := true
    idx_content_type := true
    user_version := 2 }

/-- The model of `db::migrate`: read `PRAGMA user_version` once, then run
each batch gated on that original value. -/
def migrate (s : Schema) : Schema :=
  let version := s.user_version
  let s1 := if version < 1 then migration1 s else s
  if version < 2 then migration2 s1 else s1

/-- Observable effects of one command invocation, in program order.  The
`OpenDb` step stands for `db::open`, which opens the database file and
runs `migrate` before returning; print effects carry only the data the
message interpolates. -/
inductive Effect
  | ReadClipboard
  | OpenDb
  | QueryDuplicate
  | InsertRow
  | DeleteRow
  | PromptConfirm
  | ClearRows
  | PrintSkipDuplicate
  | PrintStored (id : Int)
  | PrintDeleted (id : Int)
  | PrintAborted
  | PrintCleared (n : Nat)
deriving DecidableEq, Repr

/-- The model of `commands::store`.  `clip` is the outcome of
`clipboard::read_text` (the empty-clipboard check already applied there),
`now` the RFC-3339 timestamp `chrono::Utc::now().to_rfc3339()`.  The order
of steps mirrors the source exactly: read the clipboard, open (and
migrate) the database, parse the content-type string mapping a parse error
to `InvalidInput`, run the duplicate check only for non-password types,
auto-label passwords, insert, report. -/
def storeCmd (clip : Except ClipmError String) (label : Option String)
    (content_type_str : String) (now : String) (db : Db) :
    List Effect × Except ClipmError Unit × Db :=
  match clip with
  | .error e => ([.ReadClipboard], .error e, db)
  | .ok content =>
      match ContentType.fromStr content_type_str with
      | .error msg => ([.ReadClipboard, .OpenDb], .error (.InvalidInput msg), db)
      | .ok content_type =>
          let dupEffects := if content_type = ContentType.Password then [] else [Effect.QueryDuplicate]
          if content_type ≠ ContentType.Password ∧ db.is_duplicate content then
            ([.ReadClipboard, .OpenDb] ++ dupEffects ++ [.PrintSkipDuplicate], .ok (), db)
          else
            let label' :=
              match label, content_type with
              | none, .Password => some "password"
              | l, _ => l
            let entry : ClipEntry :=
              ⟨0, content, content_type, content.utf8ByteSize, now, label'⟩
            let (db', id) := db.insert entry
            ([.ReadClipboard, .OpenDb] ++ dupEffects ++ [.InsertRow, .PrintStored id],
             .ok (), db')

/-- The model of `commands::delete`: open the database and delete the row;
there is no confirmation prompt and no force flag anywhere on this path
(the CLI `Delete` variant carries only the id). -/
def deleteCmd (id : Int) (db : Db) : List Effect × Except ClipmError Unit × Db :=
  let (db', res) := db.delete id
  match res with
  | .ok _ => ([.OpenDb, .DeleteRow, .PrintDeleted id], .ok (), db')
  | .error e => ([.OpenDb, .DeleteRow], .error e, db)

/-- The model of `commands::clear`.  Without `--force` the user is
prompted and anything but a case-insensitive "y" aborts before the
database is even opened; with `--force` no prompt happens. -/
def clearCmd (force : Bool) (input : String) (db : Db) :
    List Effect × Except ClipmError Unit × Db :=
  if force then
    let (db', count) := db.clear
    ([.OpenDb, .ClearRows, .PrintCleared count], .ok (), db')
  else
    if trimStr input = "y" ∨ trimStr input = "Y" then
      let (db', count) := db.clear
      ([.PromptConfirm, .OpenDb, .ClearRows, .PrintCleared count], .ok (), db')
    else
      ([.PromptConfirm, .PrintAborted], .ok (), db)

/-- Example store holding one text entry, used as concrete input. -/
def dbOneRow : Db :=
  (Db.empty.insert ⟨0, "hello", .Text, 5, "2026-01-01T00:00:00+00:00", none⟩).1

/-- Example store holding one password entry labelled "github-token", used
as concrete input. -/
def dbPassword : Db :=
  (Db.empty.insert
    ⟨0, "my-secret-password", .Password, 18, "2026-01-02T00:00:00+00:00",
     some "github-token"⟩).1

/-- Example store whose single row carries the retired on-disk tag "html",
used as concrete input for corruption handling. -/
def dbBadTag : Db :=
  ⟨[⟨1, "<b>x</b>", "html", 8, "2026-01-03T00:00:00+00:00", none⟩],
   [⟨1, "<b>x</b>", none⟩], 1⟩

/-- Example store holding five text entries with ids 1..5, used as concrete
input for pagination. -/
def db5 : Db :=
  (((((Db.empty.insert ⟨0, "e1", .Text, 2, "t1", none⟩).1.insert
      ⟨0, "e2", .Text, 2, "t2", none⟩).1.insert
      ⟨0, "e3", .Text, 2, "t3", none⟩).1.insert
      ⟨0, "e4", .Text, 2, "t4", none⟩).1.insert
      ⟨0, "e5", .Text, 2, "t5", none⟩).1

/-! Helper lemmas about `maxId`, wellformedness and row conversion. -/

theorem maxId_eq_none_iff {l : List Row} : maxId l = none ↔ l = [] := by
  cases l with
  | nil => simp [maxId]
  | cons r rs =>
      simp only [maxId]
      cases maxId rs <;> simp

theorem maxId_mem {l : List Row} {m : Int} (h : maxId l = some m) : ∃ r ∈ l, r.id = m := by
  induction l generalizing m with
  | nil => simp [maxId] at h
  | cons r rs ih =>
      simp only [maxId] at h
      cases hm : maxId rs with
      | none => rw [hm] at h; exact ⟨r, by simp, by simpa using h⟩
      | some m' =>
          rw [hm] at h
          simp only [Option.some.injEq] at h
          rcases max_cases r.id m' with ⟨he, _⟩ | ⟨he, _⟩
          · exact ⟨r, by simp, by omega⟩
          · rcases ih hm with ⟨r', hr', hid⟩
            exact ⟨r', by simp [hr'], by omega⟩

theorem maxId_le {l : List Row} {m : Int} (h : maxId l = some m) :
    ∀ r ∈ l, r.id ≤ m := by
  induction l generalizing m with
  | nil => simp
  | cons r rs ih =>
      simp only [maxId] at h
      cases hm : maxId rs with
      | none =>
          rw [hm] at h
          have hrs : rs = [] := maxId_eq_none_iff.mp hm
          intro x hx
          rcases List.mem_cons.mp hx with hx' | hx'
          · simp only [Option.some.injEq] at h; rw [hx']; omega
          · rw [hrs] at hx'; cases hx'
      | some m' =>
          rw [hm] at h
          simp only [Option.some.injEq] at h
          intro x hx
          rcases List.mem_cons.mp hx with hx' | hx'
          · rw [hx']
            have hmax : r.id ≤ max r.id m' := le_max_left _ _
            omega
          · have h1 := ih hm x hx'
            have hmax : m' ≤ max r.id m' := le_max_right _ _
            omega

theorem maxId_append_last {l : List Row} {x : Row} (hb : ∀ r ∈ l, r.id < x.id) :
    maxId (l ++ [x]) = some x.id := by
  induction l with
  | nil => simp [maxId]
  | cons r rs ih =>
      have hr : r.id < x.id := hb r (by simp)
      have ih' := ih (fun r' hr' => hb r' (by simp [hr']))
      simp only [List.cons_append, maxId, List.append_eq]
      rw [ih']
      simp [max_eq_right (le_of_lt hr)]

theorem insert_wf {db : Db} (h : db.Wf) (e : ClipEntry) : (db.insert e).1.Wf := by
  obtain ⟨hpw, hle⟩ := h
  constructor
  · simp only [Db.insert]
    rw [List.pairwise_append]
    refine ⟨hpw, List.pairwise_singleton _ _, ?_⟩
    intro a ha b hb
    have := hle a ha
    simp only [List.mem_singleton] at hb
    subst hb
    simp only [Db.insert, ClipEntry.toRow]
    omega
  · intro r hr
    simp only [Db.insert] at hr ⊢
    rcases List.mem_append.mp hr with hr | hr
    · have := hle r hr; omega
    · simp only [List.mem_singleton] at hr; subst hr; simp [ClipEntry.toRow]

theorem rows_id_inj {l : List Row} (h : l.Pairwise (fun a b => a.id < b.id)) :
    ∀ a ∈ l, ∀ b ∈ l, a.id = b.id → a = b := by
  induction l with
  | nil => simp
  | cons x xs ih =>
      rcases List.pairwise_cons.mp h with ⟨hx, hxs⟩
      intro a ha b hb hab
      rcases List.mem_cons.mp ha with ha' | ha' <;>
        rcases List.mem_cons.mp hb with hb' | hb'
      · rw [ha', hb']
      · rw [ha'] at hab
        exact absurd (hx b hb') (by omega)
      · rw [hb'] at hab
        exact absurd (hx a ha') (by omega)
      · exact ih hxs a ha' b hb' hab

theorem find?_id_of_mem {l : List Row} (h : l.Pairwise (fun a b => a.id < b.id))
    {r : Row} (hr : r ∈ l) : l.find? (fun x => x.id == r.id) = some r := by
  induction l with
  | nil => cases hr
  | cons x xs ih =>
      rcases List.pairwise_cons.mp h with ⟨hx, hxs⟩
      rcases List.mem_cons.mp hr with hr' | hr'
      · rw [hr']
        rw [List.find?_cons_of_pos _ (by simp)]
      · have hne : x.id ≠ r.id := by have := hx r hr'; omega
        rw [List.find?_cons_of_neg _ (by simp [hne])]
        exact ih hxs hr'

theorem row_to_entry_fields {r : Row} {e : ClipEntry} (h : row_to_entry r = .ok e) :
    e.id = r.id ∧ e.content = r.content := by
  unfold row_to_entry at h
  cases hp : ContentType.fromStr r.content_type with
  | error msg => rw [hp] at h; cases h
  | ok ct => rw [hp] at h; cases h; exact ⟨rfl, rfl⟩

theorem row_to_entry_bad {r : Row} (h1 : r.content_type ≠ "text")
    (h2 : r.content_type ≠ "password") :
    row_to_entry r =
      .error ("Invalid content type: " ++ r.content_type ++ ". Must be 'text' or 'password'.") := by
  unfold row_to_entry ContentType.fromStr
  rw [if_neg h1, if_neg h2]

theorem row_to_entry_password {r : Row} (h : r.content_type = "password") :
    row_to_entry r = .ok ⟨r.id, r.content, .Password, r.byte_size.toNat, r.created_at, r.label⟩ := by
  unfold row_to_entry ContentType.fromStr
  rw [h]
  rfl

theorem rowsToEntries_ok_mem {l : List Row} {es : List ClipEntry}
    (h : rowsToEntries l = .ok es) :
    (∀ e ∈ es, ∃ r ∈ l, row_to_entry r = .ok e) ∧
    (∀ r ∈ l, ∃ e ∈ es, row_to_entry r = .ok e) := by
  induction l generalizing es with
  | nil =>
      simp only [rowsToEntries] at h
      cases h
      simp
  | cons r rs ih =>
      simp only [rowsToEntries] at h
      cases hr : row_to_entry r with
      | error msg => rw [hr] at h; cases h
      | ok e =>
          rw [hr] at h
          cases hrs : rowsToEntries rs with
          | error msg => rw [hrs] at h; cases h
          | ok es' =>
              rw [hrs] at h
              cases h
              obtain ⟨ihl, ihr⟩ := ih hrs
              constructor
              · intro e' he'
                rcases List.mem_cons.mp he' with rfl | he'
                · exact ⟨r, by simp, hr⟩
                · rcases ihl e' he' with ⟨r', hr', hok⟩
                  exact ⟨r', by simp [hr'], hok⟩
              · intro r' hr'
                rcases List.mem_cons.mp hr' with rfl | hr'
                · exact ⟨e, by simp, hr⟩
                · rcases ihr r' hr' with ⟨e', he', hok⟩
                  exact ⟨e', by simp [he'], hok⟩

theorem rowsToEntries_ok_ids {l : List Row} {es : List ClipEntry}
    (h : rowsToEntries l = .ok es) :
    es.map (fun e => e.id) = l.map (fun r => r.id) := by
  induction l generalizing es with
  | nil => simp only [rowsToEntries] at h; cases h; rfl
  | cons r rs ih =>
      simp only [rowsToEntries] at h
      cases hr : row_to_entry r with
      | error msg => rw [hr] at h; cases h
      | ok e =>
          rw [hr] at h
          cases hrs : rowsToEntries rs with
          | error msg => rw [hrs] at h; cases h
          | ok es' =>
              rw [hrs] at h
              cases h
              have hid := (row_to_entry_fields hr).1
              simp [hid, ih hrs]

theorem rowsToEntries_error_of_mem {l : List Row} {r : Row} (hr : r ∈ l)
    {msg0 : String} (hbad : row_to_entry r = .error msg0) :
    ∃ msg, rowsToEntries l = .error msg := by
  induction l with
  | nil => cases hr
  | cons x xs ih =>
      rcases List.mem_cons.mp hr with rfl | hr
      · exact ⟨msg0, by simp [rowsToEntries, hbad]⟩
      · simp only [rowsToEntries]
        cases hx : row_to_entry x with
        | error msg => exact ⟨msg, rfl⟩
        | ok e =>
            rcases ih hr with ⟨msg, hmsg⟩
            exact ⟨msg, by rw [hmsg]⟩

theorem insert_rows_length (db : Db) (e : ClipEntry) :
    (db.insert e).1.rows.length = db.rows.length + 1 := by
  simp [Db.insert]

theorem is_duplicate_insert (db : Db) (hwf : db.Wf) (e : ClipEntry) (x : String) :
    (db.insert e).1.is_duplicate x = decide (e.content = x) := by
  obtain ⟨hpw, hle⟩ := hwf
  have hmax : maxId (db.rows ++ [e.toRow (db.seq + 1)]) = some (db.seq + 1) := by
    have hm := maxId_append_last (l := db.rows) (x := e.toRow (db.seq + 1))
      (fun r hr => by have := hle r hr; simp only [ClipEntry.toRow]; omega)
    simpa [ClipEntry.toRow] using hm
  simp only [Db.insert, Db.is_duplicate]
  rw [hmax]
  show (db.rows ++ [e.toRow (db.seq + 1)]).any
      (fun r => decide (r.id = db.seq + 1 ∧ r.content = x)) = decide (e.content = x)
  rw [List.any_append]
  have h1 : (db.rows.any fun r => decide (r.id = db.seq + 1 ∧ r.content = x)) = false := by
    rw [List.any_eq_false]
    intro r hr
    have hid := hle r hr
    simp only [decide_eq_true_eq, not_and]
    intro hcontra
    omega
  rw [h1]
  simp only [Bool.false_or, List.any_cons, List.any_nil, Bool.or_false, ClipEntry.toRow]
  by_cases hc : e.content = x
  · simp [hc]
  · simp [hc]

theorem mem_insertDesc {x r : Row} {l : List Row} :
    x ∈ insertDesc r l ↔ x = r ∨ x ∈ l := by
  induction l with
  | nil => simp [insertDesc]
  | cons y ys ih =>
      simp only [insertDesc]
      by_cases h : y.id ≤ r.id
      · simp only [if_pos h, List.mem_cons]
      · simp only [if_neg h, List.mem_cons, ih]
        tauto

theorem insertDesc_sorted {r : Row} {l : List Row}
    (h : l.Pairwise (fun a b => b.id ≤ a.id)) :
    (insertDesc r l).Pairwise (fun a b => b.id ≤ a.id) := by
  induction l with
  | nil => simp [insertDesc]
  | cons y ys ih =>
      rcases List.pairwise_cons.mp h with ⟨hy, hys⟩
      simp only [insertDesc]
      by_cases hc : y.id ≤ r.id
      · rw [if_pos hc, List.pairwise_cons]
        refine ⟨?_, h⟩
        intro b hb
        rcases List.mem_cons.mp hb with hb' | hb'
        · rw [hb']; exact hc
        · have := hy b hb'; omega
      · rw [if_neg hc, List.pairwise_cons]
        refine ⟨?_, ih hys⟩
        intro b hb
        rcases mem_insertDesc.mp hb with hb' | hb'
        · rw [hb']; omega
        · exact hy b hb'

theorem sortDesc_sorted (l : List Row) :
    (sortDesc l).Pairwise (fun a b => b.id ≤ a.id) := by
  induction l with
  | nil => simp [sortDesc]
  | cons r rs ih => exact insertDesc_sorted ih

theorem mem_sortDesc {x : Row} {l : List Row} : x ∈ sortDesc l ↔ x ∈ l := by
  induction l with
  | nil => simp [sortDesc]
  | cons r rs ih =>
      simp only [sortDesc]
      rw [mem_insertDesc]
      simp [ih]

theorem listSelect_mem {db : Db} {limit offset : Nat} {label cutoff ct : Option String}
    {r : Row} (h : r ∈ db.listSelect limit offset label cutoff ct) :
    r ∈ db.rows ∧ rowPassesList label cutoff ct r = true := by
  unfold Db.listSelect at h
  have h1 := List.take_subset _ _ h
  have h2 := List.drop_subset _ _ h1
  rw [mem_sortDesc] at h2
  rw [List.mem_filter] at h2
  exact h2

theorem listSelect_sorted (db : Db) (limit offset : Nat) (label cutoff ct : Option String) :
    (db.listSelect limit offset label cutoff ct).Pairwise (fun a b => b.id ≤ a.id) := by
  unfold Db.listSelect
  have h0 := sortDesc_sorted (db.rows.filter (rowPassesList label cutoff ct))
  exact ((h0.sublist (List.drop_sublist _ _)).sublist (List.take_sublist _ _))

theorem searchSelect_mem {db : Db} {terms : List String} {limit : Nat}
    {cutoff ct : Option String} {r : Row} (h : r ∈ db.searchSelect terms limit cutoff ct) :
    ∃ f ∈ db.fts, ftsMatch terms f = true ∧
      db.rows.find? (fun x => x.id == f.rowid) = some r ∧
      rowPassesSearch cutoff ct r = true := by
  unfold Db.searchSelect at h
  have h1 := List.take_subset _ _ h
  rw [List.mem_filter] at h1
  obtain ⟨h2, hpass⟩ := h1
  rw [List.mem_filterMap] at h2
  obtain ⟨f, hf, hfind⟩ := h2
  rw [List.mem_filter] at hf
  exact ⟨f, hf.1, hf.2, hfind, hpass⟩

theorem mem_searchSelect_of {db : Db} {terms : List String} {limit : Nat}
    {cutoff ct : Option String} {r : Row}
    (hfts : r.toFts ∈ db.fts) (hmatch : ftsMatch terms r.toFts = true)
    (hfind : db.rows.find? (fun x => x.id == r.toFts.rowid) = some r)
    (hpass : rowPassesSearch cutoff ct r = true)
    (hlen : (db.fts.filter (ftsMatch terms)).length ≤ limit) :
    r ∈ db.searchSelect terms limit cutoff ct := by
  unfold Db.searchSelect
  have hmemf : r ∈ (db.fts.filter (ftsMatch terms)).filterMap
      (fun f => db.rows.find? (fun x => x.id == f.rowid)) := by
    rw [List.mem_filterMap]
    exact ⟨r.toFts, List.mem_filter.mpr ⟨hfts, hmatch⟩, hfind⟩
  have hmem2 := List.mem_filter.mpr ⟨hmemf, hpass⟩
  have hlen2 : (((db.fts.filter (ftsMatch terms)).filterMap
      (fun f => db.rows.find? (fun x => x.id == f.rowid))).filter
      (rowPassesSearch cutoff ct)).length ≤ limit :=
    le_trans (le_trans (List.length_filter_le _ _) (List.length_filterMap_le _ _)) hlen
  rw [List.take_of_length_le hlen2]
  exact hmem2

theorem toFts_rowid (r : Row) : r.toFts.rowid = r.id := rfl

theorem ftsMatch_password {r : Row} (h : r.content_type = "password") {terms : List String}
    (hm : ftsMatch terms r.toFts = true) :
    ∀ t ∈ terms, t ∈ tokenize (r.label.getD "") := by
  intro t ht
  unfold ftsMatch at hm
  rw [List.all_eq_true] at hm
  have hmt := hm t ht
  simp only [Row.toFts, maskForFts, h, if_pos] at hmt
  have hemp : tokenize "" = ([] : List String) := rfl
  rw [hemp] at hmt
  simp only [List.contains, List.elem_nil, Bool.false_or] at hmt
  exact List.mem_of_elem_eq_true hmt

/-- C4: the content-type parser maps exactly the literal strings "text" and
"password" to the `Text` and `Password` variants and fails for every other
input string, the failure being mapped to `InvalidInput` where the parse
result is consumed (`commands::store`); the formatter maps each variant to
its canonical lowercase string, and parse after format is the identity. -/
theorem contentType_parse_format_roundtrip :
    ContentType.fromStr "text" = .ok ContentType.Text ∧
    ContentType.fromStr "password" = .ok ContentType.Password ∧
    (∀ s : String, s ≠ "text" → s ≠ "password" →
      ContentType.fromStr s =
        .error ("Invalid content type: " ++ s ++ ". Must be 'text' or 'password'.") ∧
      (ContentType.fromStr s).mapError ClipmError.InvalidInput =
        .error (.InvalidInput
          ("Invalid content type: " ++ s ++ ". Must be 'text' or 'password'."))) ∧
    ContentType.Text.toStr = "text" ∧
    ContentType.Password.toStr = "password" ∧
    (∀ v : ContentType, ContentType.fromStr v.toStr = .ok v) := by
  refine ⟨by decide, by decide, ?_, rfl, rfl, ?_⟩
  · intro s h1 h2
    have he : ContentType.fromStr s =
        .error ("Invalid content type: " ++ s ++ ". Must be 'text' or 'password'.") := by
      unfold ContentType.fromStr
      rw [if_neg h1, if_neg h2]
    exact ⟨he, by rw [he]; rfl⟩
  · intro v
    cases v <;> decide

/-- C4 witness: parsing the concrete malformed string "bogus" fails with
the expected message and `InvalidInput` classification. -/
theorem contentType_parse_format_roundtrip_witness :
    ContentType.fromStr "bogus" =
      .error ("Invalid content type: " ++ "bogus" ++ ". Must be 'text' or 'password'.") ∧
    (ContentType.fromStr "bogus").mapError ClipmError.InvalidInput =
      .error (.InvalidInput
        ("Invalid content type: " ++ "bogus" ++ ". Must be 'text' or 'password'.")) :=
  contentType_parse_format_roundtrip.2.2.1 "bogus" (by decide) (by decide)

/-- C8: migration is version-gated (a store already at or above version 2
is untouched; a store at version 1 receives only the second migration),
each migration batch is idempotent, the whole migration procedure is
idempotent, and running it twice on a fresh store yields final schema
version 2 both times. -/
theorem migration_version_gated_idempotent :
    (∀ s : Schema, 2 ≤ s.user_version → migrate s = s) ∧
    (∀ s : Schema, s.user_version = 1 → migrate s = migration2 s) ∧
    (∀ s : Schema, migration1 (migration1 s) = migration1 s) ∧
    (∀ s : Schema, migration2 (migration2 s) = migration2 s) ∧
    (∀ s : Schema, migrate (migrate s) = migrate s) ∧
    migrate (migrate Schema.fresh) = migrate Schema.fresh ∧
    (migrate Schema.fresh).user_version = 2 ∧
    (migrate (migrate Schema.fresh)).user_version = 2 := by
  have hgate : ∀ s : Schema, 2 ≤ s.user_version → migrate s = s := by
    intro s h
    simp only [migrate]
    rw [if_neg (show ¬s.user_version < 1 by omega),
        if_neg (show ¬s.user_version < 2 by omega)]
  have hver : ∀ s : Schema, s.user_version < 2 → (migrate s).user_version = 2 := by
    intro s h2
    simp only [migrate]
    by_cases h1 : s.user_version < 1
    · rw [if_pos h1, if_pos h2]; rfl
    · rw [if_neg h1, if_pos h2]; rfl
  have hidem : ∀ s : Schema, migrate (migrate s) = migrate s := by
    intro s
    by_cases h2 : s.user_version < 2
    · exact hgate _ (le_of_eq (hver s h2).symm)
    · have h := hgate s (by omega)
      rw [h]
      exact h
  refine ⟨hgate, ?_, ?_, ?_, hidem, hidem Schema.fresh, by decide, by decide⟩
  · intro s h
    simp only [migrate]
    rw [if_neg (show ¬s.user_version < 1 by omega),
        if_pos (show s.user_version < 2 by omega)]
  · intro s
    simp [migration1]
  · intro s
    rfl

/-- C8 witness: a store already at version 2 with the full schema is left
untouched by `migrate`. -/
theorem migration_version_gated_idempotent_witness :
    migrate ⟨2, true, true, true, some 2, true, true⟩ =
      ⟨2, true, true, true, some 2, true, true⟩ :=
  migration_version_gated_idempotent.1 ⟨2, true, true, true, some 2, true, true⟩ (by decide)

/-- C2 counterexample: storing with the malformed content-type string
"bogus" does fail with `InvalidInput`, but only after `db::open` has
already opened and migrated the database: the effect trace of the run
contains the storage operation `OpenDb`, refuting "no storage operation is
performed before the InvalidInput failure is raised". -/
theorem store_malformed_type_opens_db_first :
    (storeCmd (.ok "x") none "bogus" "2026-01-01T00:00:00+00:00" Db.empty).1 =
      [Effect.ReadClipboard, Effect.OpenDb] ∧
    Effect.OpenDb ∈ (storeCmd (.ok "x") none "bogus" "2026-01-01T00:00:00+00:00" Db.empty).1 ∧
    (storeCmd (.ok "x") none "bogus" "2026-01-01T00:00:00+00:00" Db.empty).2.1 =
      .error (.InvalidInput "Invalid content type: bogus. Must be 'text' or 'password'.") := by
  refine ⟨?_, ?_, ?_⟩ <;> decide

/-- C2 amended: storing with a malformed content-type string fails with
`InvalidInput` after the database has been opened and migrated but before
any read or write of clip data: the trace is exactly clipboard read then
database open, and the database state is unchanged. -/
theorem store_malformed_type_invalid_input (content : String) (label : Option String)
    (ts now : String) (db : Db) (h1 : ts ≠ "text") (h2 : ts ≠ "password") :
    storeCmd (.ok content) label ts now db =
      ([Effect.ReadClipboard, Effect.OpenDb],
       .error (.InvalidInput ("Invalid content type: " ++ ts ++ ". Must be 'text' or 'password'.")),
       db) := by
  have he : ContentType.fromStr ts =
      .error ("Invalid content type: " ++ ts ++ ". Must be 'text' or 'password'.") := by
    unfold ContentType.fromStr
    rw [if_neg h1, if_neg h2]
  simp only [storeCmd, he]

/-- C2 amended witness: concrete run of store with the malformed type
string "html". -/
theorem store_malformed_type_invalid_input_witness :
    storeCmd (.ok "x") none "html" "2026-01-01T00:00:00+00:00" Db.empty =
      ([Effect.ReadClipboard, Effect.OpenDb],
       .error (.InvalidInput ("Invalid content type: " ++ "html" ++ ". Must be 'text' or 'password'.")),
       Db.empty) :=
  store_malformed_type_invalid_input "x" none "html" "2026-01-01T00:00:00+00:00" Db.empty
    (by decide) (by decide)

/-- C3 counterexample: a delete invocation (necessarily unforced, since the
CLI `Delete` variant has no force flag) removes the entry with no
interactive confirmation: the trace contains no prompt, the command
succeeds, and the row is gone. -/
theorem delete_unforced_removes_without_prompt :
    Effect.PromptConfirm ∉ (deleteCmd 1 dbOneRow).1 ∧
    (deleteCmd 1 dbOneRow).2.1 = .ok () ∧
    (deleteCmd 1 dbOneRow).2.2.rows = [] := by
  refine ⟨?_, ?_, ?_⟩ <;> decide

/-- C3 amended: the delete command never prompts for confirmation and
removes the row immediately; the interactive-confirmation-unless-forced
behaviour belongs to the clear command, which without `--force` prompts
and aborts unless the answer is "y", and with `--force` clears without
prompting. -/
theorem delete_never_prompts_clear_confirms :
    (∀ (id : Int) (db : Db), Effect.PromptConfirm ∉ (deleteCmd id db).1) ∧
    (∀ (input : String) (db : Db), trimStr input ≠ "y" → trimStr input ≠ "Y" →
      clearCmd false input db = ([Effect.PromptConfirm, Effect.PrintAborted], .ok (), db)) ∧
    (∀ (input : String) (db : Db), (trimStr input = "y" ∨ trimStr input = "Y") →
      (clearCmd false input db).1 =
        [Effect.PromptConfirm, Effect.OpenDb, Effect.ClearRows,
         Effect.PrintCleared db.rows.length]) ∧
    (∀ (input : String) (db : Db),
      (clearCmd true input db).1 =
        [Effect.OpenDb, Effect.ClearRows, Effect.PrintCleared db.rows.length] ∧
      Effect.PromptConfirm ∉ (clearCmd true input db).1) := by
  refine ⟨?_, ?_, ?_, ?_⟩
  · intro id db
    unfold deleteCmd
    rcases hres : db.delete id with ⟨db', res⟩
    cases res <;> simp
  · intro input db hn hy
    simp only [clearCmd, if_neg (show ¬(trimStr input = "y" ∨ trimStr input = "Y") by
      simp [hn, hy]), if_neg (Bool.false_ne_true)]
  · intro input db h
    simp only [clearCmd, if_pos h, if_neg (Bool.false_ne_true), Db.clear]
  · intro input db
    refine ⟨?_, ?_⟩ <;> simp [clearCmd, Db.clear]

/-- C3 amended witness: concrete runs — delete never prompts on the
one-row store, and an unforced clear answered "n" aborts leaving the store
intact. -/
theorem delete_never_prompts_clear_confirms_witness :
    clearCmd false "n" dbOneRow = ([Effect.PromptConfirm, Effect.PrintAborted], .ok (), dbOneRow) :=
  delete_never_prompts_clear_confirms.2.1 "n" dbOneRow (by decide) (by decide)

/-- C10: in the store command the clipboard is read before the content-type
string is parsed, so a clipboard failure wins over a malformed type
argument: with an empty clipboard and a malformed `--type`, store fails
with `EmptyClipboard` (and with any clipboard error, with that error),
never `InvalidInput`, and nothing else happens. -/
theorem store_clipboard_error_precedes_validation (label : Option String)
    (ts now : String) (db : Db) (_h1 : ts ≠ "text") (_h2 : ts ≠ "password") :
    storeCmd (.error ClipmError.EmptyClipboard) label ts now db =
      ([Effect.ReadClipboard], .error ClipmError.EmptyClipboard, db) ∧
    (∀ e : ClipmError, storeCmd (.error e) label ts now db =
      ([Effect.ReadClipboard], .error e, db)) :=
  ⟨rfl, fun _ => rfl⟩

/-- C10 witness: concrete run with empty clipboard and malformed type
string "bogus". -/
theorem store_clipboard_error_precedes_validation_witness :
    storeCmd (.error ClipmError.EmptyClipboard) none "bogus" "2026-01-01T00:00:00+00:00" Db.empty =
      ([Effect.ReadClipboard], .error ClipmError.EmptyClipboard, Db.empty) :=
  (store_clipboard_error_precedes_validation none "bogus" "2026-01-01T00:00:00+00:00" Db.empty
    (by decide) (by decide)).1

/-- C5: `is_duplicate(c)` is true iff the store is non-empty and a row
carrying the maximal id has content byte-for-byte equal to `c`; it is true
immediately after inserting content `c`, and false after subsequently
inserting any different content. -/
theorem is_duplicate_spec (db : Db) (c : String) (hwf : db.Wf) :
    (db.is_duplicate c = true ↔
      db.rows ≠ [] ∧ ∃ r ∈ db.rows, (∀ x ∈ db.rows, x.id ≤ r.id) ∧ r.content = c) ∧
    (∀ e : ClipEntry, e.content = c → (db.insert e).1.is_duplicate c = true) ∧
    (∀ e e' : ClipEntry, e'.content ≠ c →
      ((db.insert e).1.insert e').1.is_duplicate c = false) := by
  refine ⟨⟨?_, ?_⟩, ?_, ?_⟩
  · intro h
    unfold Db.is_duplicate at h
    cases hm : maxId db.rows with
    | none => rw [hm] at h; cases h
    | some m =>
        rw [hm, List.any_eq_true] at h
        obtain ⟨r, hr, hp⟩ := h
        rw [decide_eq_true_eq] at hp
        refine ⟨?_, r, hr, ?_, hp.2⟩
        · intro hnil; rw [hnil] at hr; cases hr
        · intro x hx
          have h1 := maxId_le hm x hx
          omega
  · rintro ⟨hne, r, hr, hmaxr, hc⟩
    unfold Db.is_duplicate
    cases hm : maxId db.rows with
    | none => exact absurd (maxId_eq_none_iff.mp hm) hne
    | some m =>
        rw [List.any_eq_true]
        obtain ⟨r', hr', hid⟩ := maxId_mem hm
        have hle1 : r.id ≤ m := maxId_le hm r hr
        have hle2 : r'.id ≤ r.id := hmaxr r' hr'
        refine ⟨r, hr, ?_⟩
        rw [decide_eq_true_eq]
        exact ⟨by omega, hc⟩
  · intro e he
    rw [is_duplicate_insert db hwf e c]
    simp [he]
  · intro e e' hne
    rw [is_duplicate_insert _ (insert_wf hwf e) e' c]
    simp [hne]

/-- C5 witness: after inserting content "abc" on the one-row store,
`is_duplicate "abc"` holds. -/
theorem is_duplicate_spec_witness :
    (dbOneRow.insert ⟨0, "abc", .Text, 3, "t", none⟩).1.is_duplicate "abc" = true :=
  (is_duplicate_spec dbOneRow "abc" (by decide)).2.1 ⟨0, "abc", .Text, 3, "t", none⟩ rfl

theorem storeCmd_password_eq (clipContent : String) (lbl : Option String) (t : String)
    (db : Db) :
    storeCmd (.ok clipContent) lbl "password" t db =
      ([Effect.ReadClipboard, Effect.OpenDb, Effect.InsertRow,
        Effect.PrintStored (db.seq + 1)], .ok (),
       (db.insert ⟨0, clipContent, .Password, clipContent.utf8ByteSize, t,
          (match lbl with | none => some "password" | some l => some l)⟩).1) := by
  have hp : ContentType.fromStr "password" = .ok .Password := by decide
  cases lbl <;>
    · simp only [storeCmd, hp]
      rw [if_neg (by simp)]
      simp [Db.insert]

theorem storeCmd_text_insert_eq (clipContent : String) (lbl : Option String) (t : String)
    (db : Db) (hnd : db.is_duplicate clipContent = false) :
    storeCmd (.ok clipContent) lbl "text" t db =
      ([Effect.ReadClipboard, Effect.OpenDb, Effect.QueryDuplicate, Effect.InsertRow,
        Effect.PrintStored (db.seq + 1)], .ok (),
       (db.insert ⟨0, clipContent, .Text, clipContent.utf8ByteSize, t, lbl⟩).1) := by
  have ht : ContentType.fromStr "text" = .ok .Text := by decide
  cases lbl <;>
    · simp only [storeCmd, ht]
      rw [if_neg (by simp [hnd])]
      simp [Db.insert]

theorem storeCmd_text_skip_eq (clipContent : String) (lbl : Option String) (t : String)
    (db : Db) (hd : db.is_duplicate clipContent = true) :
    storeCmd (.ok clipContent) lbl "text" t db =
      ([Effect.ReadClipboard, Effect.OpenDb, Effect.QueryDuplicate,
        Effect.PrintSkipDuplicate], .ok (), db) := by
  have ht : ContentType.fromStr "text" = .ok .Text := by decide
  simp only [storeCmd, ht]
  rw [if_pos (by simp [hd])]
  simp

/-- C6: storing identical clipboard content twice in a row inserts two rows
when the content type is password (duplicate suppression bypassed), while
with type text only the first run inserts; the second text run is a
successful no-op that reports the skip. -/
theorem store_duplicate_policy (db : Db) (hwf : db.Wf) (content : String)
    (lbl lbl2 : Option String) (t1 t2 : String) :
    ((storeCmd (.ok content) lbl "password" t1 db).2.2.rows.length = db.rows.length + 1 ∧
     (storeCmd (.ok content) lbl2 "password" t2
        (storeCmd (.ok content) lbl "password" t1 db).2.2).2.2.rows.length =
       db.rows.length + 2 ∧
     (storeCmd (.ok content) lbl "password" t1 db).2.1 = .ok () ∧
     (storeCmd (.ok content) lbl2 "password" t2
        (storeCmd (.ok content) lbl "password" t1 db).2.2).2.1 = .ok ()) ∧
    (db.is_duplicate content = false →
     (storeCmd (.ok content) lbl "text" t1 db).2.2.rows.length = db.rows.length + 1 ∧
     storeCmd (.ok content) lbl2 "text" t2 (storeCmd (.ok content) lbl "text" t1 db).2.2 =
       ([Effect.ReadClipboard, Effect.OpenDb, Effect.QueryDuplicate,
         Effect.PrintSkipDuplicate], .ok (),
        (storeCmd (.ok content) lbl "text" t1 db).2.2)) := by
  constructor
  · rw [storeCmd_password_eq content lbl t1 db]
    rw [storeCmd_password_eq content lbl2 t2 _]
    refine ⟨?_, ?_, rfl, rfl⟩
    · exact insert_rows_length db _
    · rw [insert_rows_length, insert_rows_length]
  · intro hnd
    rw [storeCmd_text_insert_eq content lbl t1 db hnd]
    have hdup : ((db.insert ⟨0, content, .Text, content.utf8ByteSize, t1, lbl⟩).1).is_duplicate
        content = true := by
      rw [is_duplicate_insert db hwf _ content]
      simp
    rw [storeCmd_text_skip_eq content lbl2 t2 _ hdup]
    exact ⟨insert_rows_length db _, rfl⟩

/-- C6 witness: concrete double store on the empty store — two password
rows versus one text row with a reported skip. -/
theorem store_duplicate_policy_witness :
    (storeCmd (.ok "hi") none "password" "t1" Db.empty).2.2.rows.length =
      Db.empty.rows.length + 1 ∧
    (storeCmd (.ok "hi") none "password" "t2"
       (storeCmd (.ok "hi") none "password" "t1" Db.empty).2.2).2.2.rows.length =
      Db.empty.rows.length + 2 ∧
    (storeCmd (.ok "hi") none "password" "t1" Db.empty).2.1 = .ok () ∧
    (storeCmd (.ok "hi") none "password" "t2"
       (storeCmd (.ok "hi") none "password" "t1" Db.empty).2.2).2.1 = .ok () :=
  (store_duplicate_policy Db.empty (by decide) "hi" none none "t1" "t2").1

/-- C7: every successful list result is ordered by id descending and every
returned entry comes from a stored row passing all the optional filters
conjunctively; concretely, list(limit=2, offset=2) over five entries with
ids 1..5 returns the entries with ids 3 and 2, in that order. -/
theorem list_order_pagination_filters :
    (∀ (db : Db) (limit offset : Nat) (label cutoff ct : Option String)
       (es : List ClipEntry), db.list limit offset label cutoff ct = .ok es →
      es.Pairwise (fun a b => b.id ≤ a.id) ∧
      ∀ e ∈ es, ∃ r ∈ db.rows,
        row_to_entry r = .ok e ∧ rowPassesList label cutoff ct r = true) ∧
    db5.list 2 2 none none none =
      .ok [⟨3, "e3", .Text, 2, "t3", none⟩, ⟨2, "e2", .Text, 2, "t2", none⟩] := by
  refine ⟨?_, by decide⟩
  intro db limit offset label cutoff ct es hok
  unfold Db.list at hok
  cases hconv : rowsToEntries (db.listSelect limit offset label cutoff ct) with
  | error msg => rw [hconv] at hok; cases hok
  | ok es' =>
      rw [hconv] at hok
      cases hok
      constructor
      · have hid := rowsToEntries_ok_ids hconv
        have hs := listSelect_sorted db limit offset label cutoff ct
        have h1 : ((db.listSelect limit offset label cutoff ct).map
            (fun r => r.id)).Pairwise (fun a b => b ≤ a) := List.pairwise_map.mpr hs
        rw [← hid] at h1
        exact List.pairwise_map.mp h1
      · intro e he
        obtain ⟨r, hrsel, hrok⟩ := (rowsToEntries_ok_mem hconv).1 e he
        obtain ⟨hrmem, hrpass⟩ := listSelect_mem hrsel
        exact ⟨r, hrmem, hrok, hrpass⟩

/-- C7 witness: the two entries returned by the concrete paginated list are
ordered by id descending. -/
theorem list_order_pagination_filters_witness :
    ([(⟨3, "e3", .Text, 2, "t3", none⟩ : ClipEntry),
      ⟨2, "e2", .Text, 2, "t2", none⟩].Pairwise (fun a b => b.id ≤ a.id)) :=
  (list_order_pagination_filters.1 db5 2 2 none none none
    [⟨3, "e3", .Text, 2, "t3", none⟩, ⟨2, "e2", .Text, 2, "t2", none⟩] (by decide)).1

/-- C9: a stored row whose content_type column holds a string other than
"text" or "password" makes every read touching it fail with a
Database-class error carrying the conversion message — get_by_id on its
id, get_most_recent when it is the newest row, list and search whenever
the row is selected — never `NotFound` and never a silently defaulted
entry. -/
theorem corrupt_content_type_reads_fail (db : Db) (hwf : db.Wf) (r : Row)
    (hr : r ∈ db.rows) (h1 : r.content_type ≠ "text") (h2 : r.content_type ≠ "password") :
    db.get_by_id r.id =
      .error (.Database
        ("Invalid content type: " ++ r.content_type ++ ". Must be 'text' or 'password'.")) ∧
    ((∀ x ∈ db.rows, x.id ≤ r.id) → db.get_most_recent =
      .error (.Database
        ("Invalid content type: " ++ r.content_type ++ ". Must be 'text' or 'password'."))) ∧
    (∀ (limit offset : Nat) (label cutoff ct : Option String),
      r ∈ db.listSelect limit offset label cutoff ct →
      ∃ msg, db.list limit offset label cutoff ct = .error (.Database msg)) ∧
    (∀ (query : String) (limit : Nat) (cutoff ct : Option String), trimStr query ≠ "" →
      r ∈ db.searchSelect (tokenize (escapeQuotes (trimStr query))) limit cutoff ct →
      ∃ msg, db.search query limit cutoff ct = .error (.Database msg)) := by
  have hbad := row_to_entry_bad h1 h2
  refine ⟨?_, ?_, ?_, ?_⟩
  · unfold Db.get_by_id
    rw [find?_id_of_mem hwf.1 hr]
    simp only [hbad]
  · intro hmaxr
    unfold Db.get_most_recent
    cases hm : maxId db.rows with
    | none =>
        exfalso
        rw [maxId_eq_none_iff.mp hm] at hr
        cases hr
    | some m =>
        have hle1 : r.id ≤ m := maxId_le hm r hr
        obtain ⟨r', hr', hid⟩ := maxId_mem hm
        have hle2 : r'.id ≤ r.id := hmaxr r' hr'
        have hmr : m = r.id := by omega
        rw [hmr]
        simp only [find?_id_of_mem hwf.1 hr, hbad]
  · intro limit offset label cutoff ct hsel
    obtain ⟨msg, hmsg⟩ := rowsToEntries_error_of_mem hsel hbad
    refine ⟨msg, ?_⟩
    unfold Db.list
    rw [hmsg]
  · intro query limit cutoff ct htrim hsel
    obtain ⟨msg, hmsg⟩ := rowsToEntries_error_of_mem hsel hbad
    refine ⟨msg, ?_⟩
    unfold Db.search
    rw [if_neg htrim, hmsg]

/-- C9 witness: reading the concrete row tagged "html" by id fails with the
Database conversion error, not NotFound. -/
theorem corrupt_content_type_reads_fail_witness :
    dbBadTag.get_by_id 1 =
      .error (.Database
        ("Invalid content type: " ++ "html" ++ ". Must be 'text' or 'password'.")) :=
  (corrupt_content_type_reads_fail dbBadTag (by decide)
    ⟨1, "<b>x</b>", "html", 8, "2026-01-03T00:00:00+00:00", none⟩
    (by decide) (by decide) (by decide)).1

/-- C1: a stored entry whose content_type is Password is never returned by
search when the query's terms match only its content (every term occurs in
the content but some term misses the label — the index holds the empty
string for password content, so such a query cannot reach it), and is
returned when the query's terms all match its label, provided the row
passes the optional filters and the candidate set fits within the limit. -/
theorem password_search_isolation (db : Db) (hwf : db.Wf) (hfts : db.FtsConsistent)
    (r : Row) (hr : r ∈ db.rows) (hpw : r.content_type = "password")
    (query : String) (limit : Nat) (cutoff ct : Option String) (es : List ClipEntry)
    (hok : db.search query limit cutoff ct = .ok es) :
    ((∀ t ∈ tokenize (escapeQuotes (trimStr query)), t ∈ tokenize r.content) →
     (∃ t ∈ tokenize (escapeQuotes (trimStr query)), t ∉ tokenize (r.label.getD "")) →
     ∀ e ∈ es, e.id ≠ r.id) ∧
    ((∀ t ∈ tokenize (escapeQuotes (trimStr query)), t ∈ tokenize (r.label.getD "")) →
     rowPassesSearch cutoff ct r = true →
     (db.fts.filter (ftsMatch (tokenize (escapeQuotes (trimStr query))))).length ≤ limit →
     ∃ e ∈ es, e.id = r.id ∧ e.content = r.content) := by
  unfold Db.search at hok
  rw [if_neg (show ¬trimStr query = "" by
    intro hc
    rw [if_pos hc] at hok
    cases hok)] at hok
  cases hconv : rowsToEntries
      (db.searchSelect (tokenize (escapeQuotes (trimStr query))) limit cutoff ct) with
  | error msg => rw [hconv] at hok; cases hok
  | ok es' =>
      simp only [hconv, Except.ok.injEq] at hok
      subst hok
      constructor
      · intro _hcont hmiss e he heq
        obtain ⟨rw0, hrw0sel, hrw0ok⟩ := (rowsToEntries_ok_mem hconv).1 e he
        obtain ⟨f, hf, hfm, hfind, _⟩ := searchSelect_mem hrw0sel
        have hfields := row_to_entry_fields hrw0ok
        have hrw0mem : rw0 ∈ db.rows := List.mem_of_find?_eq_some hfind
        have hpred : rw0.id = f.rowid := by
          have h6 := List.find?_some hfind
          simp only [beq_iff_eq] at h6
          exact h6
        rw [hfts] at hf
        obtain ⟨r1, hr1, hfr1⟩ := List.mem_map.mp hf
        have hfrow : f.rowid = r1.id := by
          rw [← hfr1]
          exact toFts_rowid r1
        have hrr1 : r1 = r := rows_id_inj hwf.1 r1 hr1 r hr (by
          have h5 := hfields.1
          omega)
        rw [← hfr1, hrr1] at hfm
        have hlab := ftsMatch_password hpw hfm
        obtain ⟨t, ht, htn⟩ := hmiss
        exact htn (hlab t ht)
      · intro hall hpass hlen
        have hftsr : r.toFts ∈ db.fts := by
          rw [hfts]
          exact List.mem_map_of_mem _ hr
        have hmatch : ftsMatch (tokenize (escapeQuotes (trimStr query))) r.toFts = true := by
          unfold ftsMatch
          rw [List.all_eq_true]
          intro t ht
          have hlab : t ∈ tokenize (r.toFts.label.getD "") := hall t ht
          rw [Bool.or_eq_true]
          right
          exact List.elem_eq_true_of_mem hlab
        have hfind : db.rows.find? (fun x => x.id == r.toFts.rowid) = some r := by
          rw [toFts_rowid]
          exact find?_id_of_mem hwf.1 hr
        have hsel := mem_searchSelect_of hftsr hmatch hfind hpass hlen
        obtain ⟨e, he, heok⟩ := (rowsToEntries_ok_mem hconv).2 r hsel
        have hfields := row_to_entry_fields heok
        exact ⟨e, he, hfields.1, hfields.2⟩

/-- C1 witness: on the store holding one password entry labelled
"github-token", searching "github" (a label match) returns the entry. -/
theorem password_search_isolation_witness :
    ∃ e ∈ [(⟨1, "my-secret-password", .Password, 18, "2026-01-02T00:00:00+00:00",
        some "github-token"⟩ : ClipEntry)],
      e.id = (1 : Int) ∧ e.content = "my-secret-password" :=
  (password_search_isolation dbPassword (by decide) (by decide)
    ⟨1, "my-secret-password", "password", 18, "2026-01-02T00:00:00+00:00",
      some "github-token"⟩
    (by decide) (by decide) "github" 10 none none
    [⟨1, "my-secret-password", .Password, 18, "2026-01-02T00:00:00+00:00",
      some "github-token"⟩]
    (by decide)).2 (by decide) (by decide) (by decide)

end Clipm
